import Mathlib

/-!
# notification-server.c : poll-set mirror and protocol callbacks

A shallow embedding of `src/notification-server.c`.  The file-scope statics
(`max_poll_elements`, `pollfds`, `fd_lookup`, `count_pollfds`) become the record
`Globals`; the two heap arrays are lists whose length is the number of elements
that `notification_init` allocated.  An array access outside the allocated block
is undefined in C and is modelled by `none`.
-/

namespace NotificationServer

/-! ## Machine integers -/

/-- Conversion of an integer value to `short` (16 bit, two's complement), as
performed when an `int` is stored into `pollfd.events`. -/
def toShort (x : Int) : Int := (x + 32768) % 65536 - 32768

/-- Conversion of an integer value to `int` (32 bit, two's complement). -/
def toInt32 (x : Int) : Int := (x + 2147483648) % 4294967296 - 2147483648

/-- Conversion of an integer value to `unsigned int` (32 bit). -/
def toUInt32 (x : Int) : Nat := (x % 4294967296).toNat

/-! ## Memory -/

/-- Read `a[i]` for a C `int` index; `none` outside the allocated block. -/
def load {α : Type} (a : List α) (i : Int) : Option α :=
  if 0 ≤ i then a[i.toNat]? else none

/-- Write `a[i] = v` for a C `int` index; `none` outside the allocated block. -/
def store {α : Type} (a : List α) (i : Int) (v : α) : Option (List α) :=
  if 0 ≤ i ∧ i < a.length then some (a.set i.toNat v) else none

/-! ## The poll-set mirror (lines 40-44, 249-277) -/

/-- The libc `struct pollfd`. -/
structure pollfd where
  fd : Int
  events : Int
  revents : Int
  deriving DecidableEq, Repr

/-- The file-scope statics that make up the poll-set mirror. -/
structure Globals where
  max_poll_elements : Int
  pollfds : List pollfd
  fd_lookup : List Int
  count_pollfds : Int
  deriving DecidableEq, Repr

/-- `case LWS_CALLBACK_ADD_POLL_FD` of `callback_http` (lines 249-260).
`fd` is `(int)(long)in`, `len` is the `size_t` argument carrying the interest
mask.  The result is the callback's return value and the new statics. -/
def callback_http_ADD_POLL_FD (g : Globals) (fd : Int) (len : Nat) :
    Option (Int × Globals) :=
  if g.count_pollfds ≥ g.max_poll_elements then
    some (1, g)
  else do
    let fd_lookup ← store g.fd_lookup fd g.count_pollfds
    let slot ← load g.pollfds g.count_pollfds
    let pollfds ← store g.pollfds g.count_pollfds
      { slot with fd := fd, events := toShort (toInt32 len), revents := 0 }
    some (0, { g with fd_lookup := fd_lookup, pollfds := pollfds,
                      count_pollfds := g.count_pollfds + 1 })

/-- `case LWS_CALLBACK_DEL_POLL_FD` of `callback_http` (lines 262-269). -/
def callback_http_DEL_POLL_FD (g : Globals) (fd : Int) : Option (Int × Globals) :=
  let count := g.count_pollfds - 1
  if count = 0 then
    some (0, { g with count_pollfds := count })
  else do
    let m ← load g.fd_lookup fd
    let last ← load g.pollfds count
    let pollfds ← store g.pollfds m last
    let moved ← load pollfds count
    let fd_lookup ← store g.fd_lookup moved.fd m
    some (0, { g with count_pollfds := count, pollfds := pollfds,
                      fd_lookup := fd_lookup })

/-- `case LWS_CALLBACK_SET_MODE_POLL_FD` of `callback_http` (lines 271-273). -/
def callback_http_SET_MODE_POLL_FD (g : Globals) (fd : Int) (len : Nat) :
    Option (Int × Globals) := do
  let m ← load g.fd_lookup fd
  let slot ← load g.pollfds m
  let pollfds ← store g.pollfds m
    { slot with events := toShort (Int.lor slot.events (toInt32 len)) }
  some (0, { g with pollfds := pollfds })

/-- `case LWS_CALLBACK_CLEAR_MODE_POLL_FD` of `callback_http` (lines 275-277). -/
def callback_http_CLEAR_MODE_POLL_FD (g : Globals) (fd : Int) (len : Nat) :
    Option (Int × Globals) := do
  let m ← load g.fd_lookup fd
  let slot ← load g.pollfds m
  let pollfds ← store g.pollfds m
    { slot with events := toShort (Int.land slot.events (Int.not (toInt32 len))) }
  some (0, { g with pollfds := pollfds })

/-! ## Predicates on the mirror -/

/-- The two arrays hold exactly `max_poll_elements` elements each, as allocated
by `notification_init` (lines 534-536), and the count lies within them. -/
def wellFormed (g : Globals) : Prop :=
  (g.pollfds.length : Int) = g.max_poll_elements ∧
  (g.fd_lookup.length : Int) = g.max_poll_elements ∧
  0 ≤ g.count_pollfds ∧ g.count_pollfds ≤ g.max_poll_elements

instance (g : Globals) : Decidable (wellFormed g) := by
  unfold wellFormed; infer_instance

/-- Every tracked slot `i < count_pollfds` satisfies
`fd_lookup[pollfds[i].fd] = i`. -/
def consistent (g : Globals) : Prop :=
  ∀ i ∈ List.range g.count_pollfds.toNat,
    (g.pollfds[i]?).bind (fun p => load g.fd_lookup p.fd) = some (i : Int)

instance (g : Globals) : Decidable (consistent g) := by
  unfold consistent; infer_instance

/-- The descriptor `fd` occurs in one of the slots `[0, count_pollfds)`. -/
def tracked (g : Globals) (fd : Int) : Prop :=
  ∃ p ∈ g.pollfds.take g.count_pollfds.toNat, p.fd = fd

instance (g : Globals) (fd : Int) : Decidable (tracked g fd) := by
  unfold tracked; infer_instance

/-- The poll-set notifications the engine delivers to `callback_http`. -/
inductive Notification where
  | add (fd : Int) (len : Nat)
  | del (fd : Int)
  deriving DecidableEq, Repr

/-- One notification handled by `callback_http`. -/
def handle (g : Globals) : Notification → Option (Int × Globals)
  | .add fd len => callback_http_ADD_POLL_FD g fd len
  | .del fd => callback_http_DEL_POLL_FD g fd

/-- The statics after a sequence of notifications, handled in order. -/
def run (g : Globals) : List Notification → Option Globals
  | [] => some g
  | n :: ns => (handle g n).bind (fun r => run r.2 ns)

/-- A notification the engine may deliver in state `g`: an added descriptor is
in `[0, max_poll_elements)` and not currently tracked, a removed descriptor is
currently tracked. -/
def permitted (g : Globals) : Notification → Prop
  | .add fd _ => 0 ≤ fd ∧ fd < g.max_poll_elements ∧ ¬ tracked g fd
  | .del fd => tracked g fd

instance (g : Globals) (n : Notification) : Decidable (permitted g n) := by
  cases n <;> (unfold permitted; infer_instance)

/-- Every notification of the sequence is permitted in the state it arrives in. -/
def admissible (g : Globals) : List Notification → Prop
  | [] => True
  | n :: ns => permitted g n ∧
      match handle g n with
      | some r => admissible r.2 ns
      | none => False

instance admissibleDecidable : (ns : List Notification) → (g : Globals) →
    Decidable (admissible g ns)
  | [], _ => isTrue trivial
  | n :: ns, g =>
    match h : handle g n with
    | some r =>
      have := admissibleDecidable ns r.2
      decidable_of_iff (permitted g n ∧ admissible r.2 ns) (by simp [admissible, h])
    | none => isFalse (by simp [admissible, h])

/-- An allocated, empty mirror of capacity 3. -/
def emptyMirror : Globals :=
  { max_poll_elements := 3, pollfds := [⟨7, 7, 7⟩, ⟨7, 7, 7⟩, ⟨7, 7, 7⟩],
    fd_lookup := [9, 9, 9], count_pollfds := 0 }

/-- A full, consistent mirror of capacity 3 tracking descriptors 2, 0 and 1. -/
def fullMirror : Globals :=
  { max_poll_elements := 3, pollfds := [⟨2, 1, 0⟩, ⟨0, 4, 0⟩, ⟨1, 5, 0⟩],
    fd_lookup := [1, 2, 0], count_pollfds := 3 }

/-! ## C strings and libc -/

/-- The terminating zero byte of a C string. -/
def NUL : Char := Char.ofNat 0

/-- The libc `strcmp` on the bytes found at two addresses: the difference of
the first pair of differing bytes (as `unsigned char`), 0 when both strings end
together; `none` when the comparison runs off the end of either block. -/
def strcmp : List Char → List Char → Option Int
  | a :: as, b :: bs =>
    if a ≠ b then some ((a.toNat : Int) - (b.toNat : Int))
    else if a = NUL then some 0
    else strcmp as bs
  | _, _ => none

/-- The string literal `s` as it lies in memory: its characters and the
terminating zero byte. -/
def cstr (s : List Char) : List Char := s ++ [NUL]

/-- The text `printf` produces for `%u`. -/
def fmt_u (n : Nat) : List Char := Nat.toDigits 10 n

/-- The text `printf` produces for `%d`. -/
def fmt_d (x : Int) : List Char :=
  if x < 0 then '-' :: Nat.toDigits 10 x.natAbs else Nat.toDigits 10 x.natAbs

/-! ## The notification protocol (lines 344-346, 425-485) -/

/-- The per-connection state `struct per_session_data__dumb_increment`. -/
structure per_session_data__dumb_increment where
  number : Int
  deriving DecidableEq, Repr

/-- What one call of `callback_notification` does: its return value, the
session data afterwards and the payloads handed to `libwebsocket_write`. -/
structure NotificationResult where
  ret : Int
  pss : per_session_data__dumb_increment
  written : List (List Char)
  deriving DecidableEq, Repr

/-- `case LWS_CALLBACK_ESTABLISHED` of `callback_notification` (lines 443-446). -/
def callback_notification_ESTABLISHED (_pss : per_session_data__dumb_increment) :
    NotificationResult :=
  { ret := 0, pss := { number := 0 }, written := [] }

/-- `case LWS_CALLBACK_SERVER_WRITEABLE` of `callback_notification`
(lines 448-460).  `close_testing` is the file-scope static, the function
`libwebsocket_write` gives the engine's return value for the payload it is
handed.  The post-increment of the `int` counter is taken in 32-bit two's
complement. -/
def callback_notification_SERVER_WRITEABLE (close_testing : Int)
    (libwebsocket_write : List Char → Int) (pss : per_session_data__dumb_increment) :
    NotificationResult :=
  let p := ['n', 'o', 't'] ++ fmt_d pss.number ++ ['\n']
  let n : Int := p.length
  let pss1 : per_session_data__dumb_increment := { number := toInt32 (pss.number + 1) }
  let m := libwebsocket_write p
  if m < n then
    { ret := -1, pss := pss1, written := [p] }
  else if close_testing ≠ 0 ∧ pss1.number = 50 then
    { ret := -1, pss := pss1, written := [p] }
  else
    { ret := 0, pss := pss1, written := [p] }

/-- The literal `"reset\n"`. -/
def reset_cmd : List Char := ['r', 'e', 's', 'e', 't', '\n']

/-- `case LWS_CALLBACK_RECEIVE` of `callback_notification` (lines 462-468).
`mem` is the memory found at `in` (the payload and the bytes that follow it),
`len` the payload length the engine reports.  `none` when `strcmp` reads past
the end of `mem`. -/
def callback_notification_RECEIVE (pss : per_session_data__dumb_increment)
    (mem : List Char) (len : Nat) : Option NotificationResult :=
  if len < 6 then
    some { ret := 0, pss := pss, written := [] }
  else do
    let c ← strcmp mem (cstr reset_cmd)
    if c = 0 then
      some { ret := 0, pss := { number := 0 }, written := [] }
    else
      some { ret := 0, pss := pss, written := [] }

/-- The session data after `k` write-ready callbacks that follow
`LWS_CALLBACK_ESTABLISHED`, with no other callback in between. -/
def afterPushes (close_testing : Int) (libwebsocket_write : List Char → Int)
    (pss : per_session_data__dumb_increment) : Nat → per_session_data__dumb_increment
  | 0 => (callback_notification_ESTABLISHED pss).pss
  | k + 1 => (callback_notification_SERVER_WRITEABLE close_testing libwebsocket_write
      (afterPushes close_testing libwebsocket_write pss k)).pss

/-- The return value of push number `k + 1` after `LWS_CALLBACK_ESTABLISHED`. -/
def pushReturn (close_testing : Int) (libwebsocket_write : List Char → Int)
    (pss : per_session_data__dumb_increment) (k : Nat) : Int :=
  (callback_notification_SERVER_WRITEABLE close_testing libwebsocket_write
    (afterPushes close_testing libwebsocket_write pss k)).ret

/-! ## The HTTP request branch (lines 75-97, 117-187) -/

/-- The initial value `LOCAL_RESOURCE_PATH` of `resource_path`; nothing in the
file assigns to it. -/
def resource_path : List Char := ".".toList

/-- The `struct serveable` of the whitelist. -/
structure serveable where
  urlpath : List Char
  mimetype : List Char
  deriving DecidableEq, Repr

/-- The static table `whitelist`; the last entry is the default. -/
def whitelist : List serveable :=
  [ ⟨"/favicon.ico".toList, "image/x-icon".toList⟩,
    ⟨"/libwebsockets.org-logo.png".toList, "image/png".toList⟩,
    ⟨"/test.html".toList, "text/html".toList⟩ ]

/-- The path of the "send a big file by hand" case. -/
def leaf_url : List Char := "/leaf.jpg".toList

/-- The per-connection state `struct per_session_data__http`. -/
structure per_session_data__http where
  fd : Int
  deriving DecidableEq, Repr

/-- The calls `callback_http` makes into libc and the engine, in order. -/
inductive HttpCall where
  | open_rdonly (path : List Char)
  | fstat (fd : Int)
  | libwebsocket_write (bytes : List Char)
  | close (fd : Int)
  | libwebsocket_callback_on_writable
  | libwebsockets_serve_http_file (path mimetype : List Char)
  deriving DecidableEq, Repr

/-- What libc and the engine answer during one HTTP request: the descriptor
(or negative error) of `open`, the `st_size` (an `off_t`) that `fstat` stores,
and the return values of the two engine calls. -/
structure HttpEnv where
  open_rdonly : List Char → Int
  st_size : Int
  libwebsocket_write : List Char → Int
  libwebsockets_serve_http_file : List Char → List Char → Int

/-- What one call of `callback_http` with reason LWS_CALLBACK_HTTP does. -/
structure HttpResult where
  ret : Int
  pss : per_session_data__http
  calls : List HttpCall
  deriving DecidableEq, Repr

/-- The header block that lines 142-147 print into `buffer`; `%u` receives
`(unsigned int)stat_buf.st_size`. -/
def leaf_header (st_size : Int) : List Char :=
  "HTTP/1.0 200 OK\r\n".toList ++
  "Server: libwebsockets\r\n".toList ++
  "Content-Type: image/jpeg\r\n".toList ++
  "Content-Length: ".toList ++ fmt_u (toUInt32 st_size) ++ "\r\n\r\n".toList

/-- The loop of lines 172-174 from index `n` on: the first index among the
entries `es` (all but the last of the table) whose `urlpath` compares equal to
the request, else the index after them. -/
def whitelist_scan (mem : List Char) : List serveable → Nat → Option Nat
  | [], n => some n
  | e :: es, n => do
    let c ← strcmp mem (cstr e.urlpath)
    if c = 0 then some n else whitelist_scan mem es (n + 1)

/-- `case LWS_CALLBACK_HTTP` of `callback_http` (lines 117-187).  `mem` is the
memory found at `in`, the requested path as a C string. -/
def callback_http_HTTP (env : HttpEnv) (pss : per_session_data__http)
    (mem : List Char) : Option HttpResult := do
  let c ← strcmp mem (cstr leaf_url)
  if c = 0 then
    let leaf_path := resource_path ++ "/leaf.jpg".toList
    let fd := env.open_rdonly leaf_path
    if fd < 0 then
      some { ret := -1, pss := { fd := fd }, calls := [.open_rdonly leaf_path] }
    else
      let hdr := leaf_header env.st_size
      let n := env.libwebsocket_write hdr
      if n < 0 then
        some { ret := -1, pss := { fd := fd },
               calls := [.open_rdonly leaf_path, .fstat fd, .libwebsocket_write hdr,
                         .close fd] }
      else
        some { ret := 0, pss := { fd := fd },
               calls := [.open_rdonly leaf_path, .fstat fd, .libwebsocket_write hdr,
                         .libwebsocket_callback_on_writable] }
  else do
    let n ← whitelist_scan mem (whitelist.take (whitelist.length - 1)) 0
    let e ← whitelist[n]?
    let buf := resource_path ++ e.urlpath
    if env.libwebsockets_serve_http_file buf e.mimetype ≠ 0 then
      some { ret := -1, pss := pss,
             calls := [.libwebsockets_serve_http_file buf e.mimetype] }
    else
      some { ret := 0, pss := pss,
             calls := [.libwebsockets_serve_http_file buf e.mimetype] }

/-! ## The driver tick (lines 570-619) -/

/-- What the system answers during one tick: the seconds of `gettimeofday`,
`poll` (its return value and the array with `revents` filled in) and the
engine's `libwebsocket_service_fd`. -/
structure TickEnv where
  tv_sec : Int
  poll : List pollfd → Int → Int × List pollfd
  libwebsocket_service_fd : pollfd → Int

/-- What one call of `notification_handle` does: its return value, the static
`olds` afterwards, whether all notification connections were marked
write-ready, and the descriptors handed to the engine. -/
structure TickResult where
  ret : Int
  olds : Nat
  marked_writable : Bool
  serviced : List pollfd
  deriving DecidableEq, Repr

/-- The `for` loop of lines 605-616 over the slots `ns`: `(1, _)` when the loop
leaves through `return 1`, `(0, _)` when it runs to its end; with the
descriptors handed to the engine.  The engine's answer is a function of the
slot it is handed; changes it makes to the poll set while servicing are outside
this model. -/
def service_loop (libwebsocket_service_fd : pollfd → Int) (pollfds : List pollfd) :
    List Nat → Option (Int × List pollfd)
  | [] => some (0, [])
  | n :: ns => do
    let p ← pollfds[n]?
    if p.revents ≠ 0 then
      if libwebsocket_service_fd p < 0 then
        some (1, [p])
      else do
        let r ← service_loop libwebsocket_service_fd pollfds ns
        some (r.1, p :: r.2)
    else
      service_loop libwebsocket_service_fd pollfds ns

/-- The function `notification_handle` (lines 574-619); `olds` is its static
`unsigned int`, `g` the poll-set mirror. -/
def notification_handle (env : TickEnv) (olds : Nat) (g : Globals) : Option TickResult :=
  let fire : Bool := decide (toUInt32 ((toUInt32 env.tv_sec : Int) - (olds : Int)) > 0)
  let olds1 : Nat := if fire then toUInt32 env.tv_sec else olds
  let polled := env.poll g.pollfds g.count_pollfds
  let n := polled.1
  if n < 0 then
    some { ret := n, olds := olds1, marked_writable := fire, serviced := [] }
  else if n ≠ 0 then do
    let r ← service_loop env.libwebsocket_service_fd polled.2
      (List.range g.count_pollfds.toNat)
    some { ret := r.1, olds := olds1, marked_writable := fire, serviced := r.2 }
  else
    some { ret := 0, olds := olds1, marked_writable := fire, serviced := [] }

/-- A tick in which `poll` reports one ready descriptor and the engine's
service entry point fails on it. -/
def failingTickEnv : TickEnv :=
  { tv_sec := 100,
    poll := fun fds _ => (1, fds.map (fun p => { p with revents := 1 })),
    libwebsocket_service_fd := fun _ => -1 }

/-- A request environment in which the backing file has 2^32 bytes. -/
def bigFileEnv : HttpEnv :=
  { open_rdonly := fun _ => 5,
    st_size := 4294967296,
    libwebsocket_write := fun b => b.length,
    libwebsockets_serve_http_file := fun _ _ => 0 }

/-! ## The manual file transfer (lines 194-225) -/

/-- The calls the LWS_CALLBACK_HTTP_WRITEABLE branch makes, in order: `read`
with the file offset it starts at, `libwebsocket_write` with the chunk in
`buffer`, `lseek` with its `SEEK_CUR` argument. -/
inductive WriteableCall where
  | read (offset : Int)
  | libwebsocket_write (bytes : List Char)
  | lseek_cur (delta : Int)
  | close (fd : Int)
  | libwebsocket_callback_on_writable
  deriving DecidableEq, Repr

/-- What libc and the engine answer in one pass of the `do ... while` loop: the
return values of `read`, of `libwebsocket_write` and of
`lws_send_pipe_choked` (as "non-zero"). -/
structure WriteableAnswers where
  read : Int
  libwebsocket_write : Int
  lws_send_pipe_choked : Bool
  deriving DecidableEq, Repr

/-- The file offset after `lseek(fd, delta, SEEK_CUR)` at offset `pos`; a seek
to a negative offset fails and leaves the offset where it was. -/
def lseek_cur (pos delta : Int) : Int :=
  if pos + delta < 0 then pos else pos + delta

/-- One pass of the loop body: whether it left through `goto bail`, the file
offset afterwards, the calls made, and the bytes the transport accepted (the
first `m` bytes of the chunk when `libwebsocket_write` returns `m`). -/
structure BodyResult where
  bail : Bool
  offset : Int
  calls : List WriteableCall
  accepted : List Char
  deriving DecidableEq, Repr

/-- The loop body, lines 200-217, for a file with contents `file` whose
descriptor stands at offset `pos`.  A successful `read` of `n` bytes delivers
the `n` bytes found at `pos` and advances the offset by `n`. -/
def writeable_body (file : List Char) (a : WriteableAnswers) (pos : Int) : BodyResult :=
  let n := a.read
  if n < 0 then
    { bail := true, offset := pos, calls := [.read pos], accepted := [] }
  else if n = 0 then
    { bail := true, offset := pos, calls := [.read pos], accepted := [] }
  else
    let chunk := (file.drop pos.toNat).take n.toNat
    let pos1 := pos + n
    let m := a.libwebsocket_write
    if m < 0 then
      { bail := true, offset := pos1,
        calls := [.read pos, .libwebsocket_write chunk], accepted := [] }
    else if m ≠ n then
      { bail := false, offset := lseek_cur pos1 (m - n),
        calls := [.read pos, .libwebsocket_write chunk, .lseek_cur (m - n)],
        accepted := chunk.take m.toNat }
    else
      { bail := false, offset := pos1,
        calls := [.read pos, .libwebsocket_write chunk],
        accepted := chunk.take m.toNat }

/-- What one call of `callback_http` with reason LWS_CALLBACK_HTTP_WRITEABLE
does: return value, file offset of `pss->fd` afterwards, calls made, and all
bytes the transport accepted. -/
structure WriteableResult where
  ret : Int
  offset : Int
  calls : List WriteableCall
  accepted : List Char
  deriving DecidableEq, Repr

/-- `case LWS_CALLBACK_HTTP_WRITEABLE` of `callback_http` (lines 194-225): the
`do ... while (!lws_send_pipe_choked(wsi))` loop, one element of `answers` per
pass, started with `pss->fd = fd` at file offset `pos`.  `none` when the loop
wants a further pass and `answers` holds no more. -/
def callback_http_HTTP_WRITEABLE (file : List Char) (fd : Int) :
    List WriteableAnswers → Int → Option WriteableResult
  | [], _ => none
  | a :: rest, pos =>
    let b := writeable_body file a pos
    if b.bail then
      some { ret := -1, offset := b.offset, calls := b.calls ++ [.close fd],
             accepted := b.accepted }
    else if a.lws_send_pipe_choked then
      some { ret := 0, offset := b.offset,
             calls := b.calls ++ [.libwebsocket_callback_on_writable],
             accepted := b.accepted }
    else
      (callback_http_HTTP_WRITEABLE file fd rest b.offset).map fun r =>
        { r with calls := b.calls ++ r.calls, accepted := b.accepted ++ r.accepted }

/-- A ten-byte file. -/
def tenBytes : List Char := "0123456789".toList

/-! # Theorems -/

/-! ## Memory lemmas -/

theorem load_natCast {α : Type} (a : List α) (i : Nat) : load a (i : Int) = a[i]? := by
  simp [load]

theorem load_eq_some_iff {α : Type} {a : List α} {i : Int} {v : α} :
    load a i = some v ↔ 0 ≤ i ∧ a[i.toNat]? = some v := by
  unfold load
  split <;> simp [*]

theorem load_bounds {α : Type} {a : List α} {i : Int} {v : α} (h : load a i = some v) :
    0 ≤ i ∧ i < a.length := by
  rw [load_eq_some_iff] at h
  obtain ⟨h0, h1⟩ := h
  have := (List.getElem?_eq_some_iff.mp h1).1
  omega

theorem load_isSome {α : Type} {a : List α} {i : Int} (h0 : 0 ≤ i) (h1 : i < a.length) :
    ∃ v, load a i = some v := by
  have h : i.toNat < a.length := by omega
  exact ⟨a[i.toNat], by simp [load, h0, List.getElem?_eq_getElem h]⟩

theorem store_eq_some_iff {α : Type} {a a' : List α} {i : Int} {v : α} :
    store a i v = some a' ↔ (0 ≤ i ∧ i < a.length) ∧ a' = a.set i.toNat v := by
  unfold store
  split <;> simp [*, eq_comm]

theorem load_set_self {α : Type} {a : List α} {i : Int} {v : α}
    (h0 : 0 ≤ i) (h1 : i < a.length) : load (a.set i.toNat v) i = some v := by
  have h : i.toNat < a.length := by omega
  simp [load, h0, h]

theorem load_set_ne {α : Type} {a : List α} {i j : Int} {v : α}
    (h0 : 0 ≤ i) (hj : 0 ≤ j) (hne : j ≠ i) : load (a.set i.toNat v) j = load a j := by
  have h : i.toNat ≠ j.toNat := by omega
  simp [load, hj, h]

theorem consistent_iff (g : Globals) :
    consistent g ↔ ∀ i : Int, 0 ≤ i → i < g.count_pollfds →
      ∃ p, load g.pollfds i = some p ∧ load g.fd_lookup p.fd = some i := by
  unfold consistent
  constructor
  · intro h i h0 h1
    have hi := h i.toNat (by simp [List.mem_range]; omega)
    have hc : ((i.toNat : Nat) : Int) = i := by omega
    rw [hc] at hi
    cases hp : g.pollfds[i.toNat]? with
    | none => simp [hp] at hi
    | some p =>
      refine ⟨p, ?_, ?_⟩
      · simp [load, h0, hp]
      · simpa [hp] using hi
  · intro h i hi
    have hi' : i < g.count_pollfds.toNat := by simpa [List.mem_range] using hi
    obtain ⟨p, hp, hl⟩ := h (i : Int) (by omega) (by omega)
    rw [load_natCast] at hp
    simp [hp, hl]

theorem tracked_iff (g : Globals) (fd : Int) :
    tracked g fd ↔ ∃ i : Int, 0 ≤ i ∧ i < g.count_pollfds ∧
      ∃ p, load g.pollfds i = some p ∧ p.fd = fd := by
  unfold tracked
  constructor
  · rintro ⟨p, hp, hfd⟩
    obtain ⟨i, hi, hget⟩ := List.getElem_of_mem hp
    have hlen : i < g.count_pollfds.toNat := by
      have := hi
      simp only [List.length_take] at this
      omega
    refine ⟨(i : Int), by omega, by omega, p, ?_, hfd⟩
    rw [load_natCast]
    rw [List.getElem_take] at hget
    rw [List.getElem?_eq_some_iff]
    exact ⟨_, hget⟩
  · rintro ⟨i, h0, h1, p, hp, hfd⟩
    refine ⟨p, ?_, hfd⟩
    rw [load_eq_some_iff] at hp
    have hp2 := hp.2
    rw [List.getElem?_eq_some_iff] at hp2
    obtain ⟨hlt, hget⟩ := hp2
    rw [List.mem_iff_getElem]
    refine ⟨i.toNat, ?_, ?_⟩
    · simp only [List.length_take]; omega
    · rw [List.getElem_take]; exact hget

/-! ## The two branches in closed form -/

theorem add_reject (g : Globals) (fd : Int) (len : Nat)
    (h : g.count_pollfds ≥ g.max_poll_elements) :
    callback_http_ADD_POLL_FD g fd len = some (1, g) := by
  simp [callback_http_ADD_POLL_FD, h]

theorem add_accept (g : Globals) (fd : Int) (len : Nat) (hwf : wellFormed g)
    (hc : g.count_pollfds < g.max_poll_elements)
    (h0 : 0 ≤ fd) (h1 : fd < g.max_poll_elements) :
    callback_http_ADD_POLL_FD g fd len = some (0,
      { g with fd_lookup := g.fd_lookup.set fd.toNat g.count_pollfds,
               pollfds := g.pollfds.set g.count_pollfds.toNat
                 ⟨fd, toShort (toInt32 len), 0⟩,
               count_pollfds := g.count_pollfds + 1 }) := by
  obtain ⟨hl1, hl2, hc0, -⟩ := hwf
  obtain ⟨slot, hslot⟩ := load_isSome (a := g.pollfds) hc0 (by omega)
  have hs1 : store g.fd_lookup fd g.count_pollfds =
      some (g.fd_lookup.set fd.toNat g.count_pollfds) := by
    rw [store_eq_some_iff]; exact ⟨⟨h0, by omega⟩, rfl⟩
  have hs2 : ∀ v, store g.pollfds g.count_pollfds v =
      some (g.pollfds.set g.count_pollfds.toNat v) := by
    intro v; rw [store_eq_some_iff]; exact ⟨⟨hc0, by omega⟩, rfl⟩
  have hn : ¬ g.count_pollfds ≥ g.max_poll_elements := by omega
  simp [callback_http_ADD_POLL_FD, hn, hs1, hs2, hslot]

theorem del_closed (g : Globals) (fd m : Int) (p : pollfd) (hwf : wellFormed g)
    (hcons : consistent g) (hm0 : 0 ≤ m) (hm1 : m < g.count_pollfds)
    (hp : load g.pollfds m = some p) (hfd : p.fd = fd) :
    ∃ last, load g.pollfds (g.count_pollfds - 1) = some last ∧
      load g.fd_lookup last.fd = some (g.count_pollfds - 1) ∧
      load g.fd_lookup fd = some m ∧
      callback_http_DEL_POLL_FD g fd = some (0,
        if g.count_pollfds - 1 = 0 then { g with count_pollfds := g.count_pollfds - 1 }
        else { g with count_pollfds := g.count_pollfds - 1,
                      pollfds := g.pollfds.set m.toNat last,
                      fd_lookup := g.fd_lookup.set last.fd.toNat m }) := by
  have hc := (consistent_iff g).mp hcons
  obtain ⟨hl1, hl2, hc0, hc1⟩ := hwf
  obtain ⟨last, hlast, hlk⟩ := hc (g.count_pollfds - 1) (by omega) (by omega)
  obtain ⟨p', hp', hlm⟩ := hc m hm0 hm1
  rw [hp] at hp'
  cases hp'
  rw [hfd] at hlm
  refine ⟨last, hlast, hlk, hlm, ?_⟩
  by_cases hz : g.count_pollfds - 1 = 0
  · simp [callback_http_DEL_POLL_FD, hz]
  · have hs1 : store g.pollfds m last = some (g.pollfds.set m.toNat last) := by
      rw [store_eq_some_iff]; exact ⟨⟨hm0, by omega⟩, rfl⟩
    have hmoved : load (g.pollfds.set m.toNat last) (g.count_pollfds - 1) = some last := by
      by_cases hmc : g.count_pollfds - 1 = m
      · rw [hmc]; exact load_set_self hm0 (by omega)
      · rw [load_set_ne hm0 (by omega) hmc]; exact hlast
    have hb := load_bounds hlk
    have hs2 : store g.fd_lookup last.fd m = some (g.fd_lookup.set last.fd.toNat m) := by
      rw [store_eq_some_iff]; exact ⟨hb, rfl⟩
    simp [callback_http_DEL_POLL_FD, hz, hlm, hlast, hs1, hmoved, hs2]

/-! ## Both branches preserve the invariant -/

theorem add_preserves (g : Globals) (fd : Int) (len : Nat) (hwf : wellFormed g)
    (hcons : consistent g) (hperm : permitted g (.add fd len)) :
    ∃ r, handle g (.add fd len) = some r ∧ wellFormed r.2 ∧ consistent r.2 := by
  obtain ⟨h0, h1, hnt⟩ := hperm
  by_cases hc : g.count_pollfds ≥ g.max_poll_elements
  · exact ⟨(1, g), add_reject g fd len hc, hwf, hcons⟩
  · have hc' : g.count_pollfds < g.max_poll_elements := by omega
    refine ⟨_, add_accept g fd len hwf hc' h0 h1, ?_, ?_⟩
    · obtain ⟨hl1, hl2, hc0, -⟩ := hwf
      refine ⟨?_, ?_, ?_, ?_⟩ <;> simp only [List.length_set] <;> omega
    · have hold := (consistent_iff g).mp hcons
      obtain ⟨hl1, hl2, hc0, -⟩ := hwf
      rw [consistent_iff]
      intro i hi0 hi1
      simp only at hi1 ⊢
      by_cases hic : i = g.count_pollfds
      · subst hic
        refine ⟨_, load_set_self hc0 (by omega), ?_⟩
        exact load_set_self h0 (by omega)
      · obtain ⟨p, hp, hl⟩ := hold i hi0 (by omega)
        refine ⟨p, ?_, ?_⟩
        · rw [load_set_ne hc0 hi0 hic]; exact hp
        · have hne : p.fd ≠ fd := by
            intro heq
            exact hnt ((tracked_iff g fd).mpr ⟨i, hi0, by omega, p, hp, heq⟩)
          rw [load_set_ne h0 (load_bounds hl).1 hne]; exact hl

theorem del_preserves (g : Globals) (fd : Int) (hwf : wellFormed g)
    (hcons : consistent g) (hperm : permitted g (.del fd)) :
    ∃ r, handle g (.del fd) = some r ∧ wellFormed r.2 ∧ consistent r.2 := by
  obtain ⟨m, hm0, hm1, p, hp, hfd⟩ := (tracked_iff g fd).mp hperm
  obtain ⟨last, hlast, hlk, -, heq⟩ := del_closed g fd m p hwf hcons hm0 hm1 hp hfd
  have hold := (consistent_iff g).mp hcons
  obtain ⟨hl1, hl2, hc0, hc1⟩ := hwf
  refine ⟨_, heq, ?_, ?_⟩
  · split
    · exact ⟨hl1, hl2, by simp only; omega, by simp only; omega⟩
    · refine ⟨?_, ?_, ?_, ?_⟩ <;> simp only [List.length_set] <;> omega
  · rw [consistent_iff]
    split
    · intro i hi0 hi1
      simp only at hi1
      omega
    · intro i hi0 hi1
      simp only at hi1 ⊢
      by_cases him : i = m
      · subst him
        refine ⟨last, load_set_self hi0 (by omega), ?_⟩
        exact load_set_self (load_bounds hlk).1 (load_bounds hlk).2
      · obtain ⟨q, hq, hql⟩ := hold i hi0 (by omega)
        refine ⟨q, ?_, ?_⟩
        · rw [load_set_ne hm0 hi0 him]; exact hq
        · have hne : q.fd ≠ last.fd := by
            intro h
            rw [h, hlk] at hql
            cases hql
            omega
          rw [load_set_ne (load_bounds hlk).1 (load_bounds hql).1 hne]; exact hql

theorem handle_preserves (g : Globals) (n : Notification) (hwf : wellFormed g)
    (hcons : consistent g) (hperm : permitted g n) :
    ∃ r, handle g n = some r ∧ wellFormed r.2 ∧ consistent r.2 := by
  cases n with
  | add fd len => exact add_preserves g fd len hwf hcons hperm
  | del fd => exact del_preserves g fd hwf hcons hperm

theorem run_preserves (ns : List Notification) : ∀ (g : Globals), wellFormed g →
    consistent g → admissible g ns →
    ∃ g', run g ns = some g' ∧ wellFormed g' ∧ consistent g' := by
  induction ns with
  | nil => intro g hwf hcons _; exact ⟨g, rfl, hwf, hcons⟩
  | cons n ns ih =>
    intro g hwf hcons hadm
    obtain ⟨hperm, hrest⟩ := hadm
    obtain ⟨r, hr, hwf', hcons'⟩ := handle_preserves g n hwf hcons hperm
    rw [hr] at hrest
    obtain ⟨g', hg', h⟩ := ih r.2 hwf' hcons' hrest
    exact ⟨g', by simp [run, hr, hg'], h⟩

theorem admissible_take (ns : List Notification) : ∀ (g : Globals) (k : Nat),
    admissible g ns → admissible g (ns.take k) := by
  induction ns with
  | nil => intro g k h; simpa using h
  | cons n ns ih =>
    intro g k h
    cases k with
    | zero => simp [admissible]
    | succ k =>
      obtain ⟨hperm, hrest⟩ := h
      refine ⟨hperm, ?_⟩
      cases hh : handle g n with
      | none => simp [hh] at hrest
      | some r =>
        simp only [hh] at hrest ⊢
        exact ih r.2 k hrest

theorem consistent_of_count_zero (g : Globals) (h : g.count_pollfds = 0) :
    consistent g := by
  rw [consistent_iff]
  intro i h0 h1
  omega

/-- C1. Poll-set mirror consistency: starting from an allocated, empty mirror
(`count_pollfds = 0`), for every sequence of ADD_POLL_FD / DEL_POLL_FD
notifications in which each added descriptor lies in `[0, max_poll_elements)`
and is not currently tracked and each removed descriptor is currently tracked,
the callback handles every notification, and after every notification (after
each prefix of the sequence) the arrays keep their allocated size and every
tracked slot `i < count_pollfds` satisfies `fd_lookup[pollfds[i].fd] = i`. -/
theorem pollfd_mirror_consistent (g : Globals) (ns : List Notification)
    (hwf : wellFormed g) (hempty : g.count_pollfds = 0) (hadm : admissible g ns) :
    ∀ k, ∃ g', run g (ns.take k) = some g' ∧ wellFormed g' ∧ consistent g' :=
  fun k => run_preserves (ns.take k) g hwf (consistent_of_count_zero g hempty)
    (admissible_take ns g k hadm)

/-! ## Swap-with-last on lists -/

theorem append_singleton_perm_set {α : Type} (x : α) : ∀ (s : List α) (m : Nat) (p : α),
    s[m]? = some p → (s ++ [x]).Perm (p :: s.set m x) := by
  intro s
  induction s with
  | nil => intro m p h; simp at h
  | cons a t ih =>
    intro m p h
    cases m with
    | zero =>
      simp only [List.getElem?_cons_zero, Option.some.injEq] at h
      subst h
      simp
    | succ k =>
      simp only [List.getElem?_cons_succ] at h
      have h1 := (ih k p h).cons a
      exact h1.trans (List.Perm.swap p a _)

theorem take_succ_perm_swap {α : Type} (l : List α) (c m : Nat) (p last : α)
    (hm : m ≤ c) (hp : l[m]? = some p) (hl : l[c]? = some last) :
    (l.take (c + 1)).Perm (p :: (l.set m last).take c) := by
  rw [List.take_succ, hl, List.set_take]
  simp only [Option.toList_some]
  by_cases hmc : m = c
  · subst hmc
    rw [hp] at hl
    cases hl
    rw [List.set_eq_of_length_le (by simp)]
    exact List.perm_append_singleton p _
  · apply append_singleton_perm_set
    rw [List.getElem?_take_of_lt (by omega)]
    exact hp

/-- C2. Add at capacity is rejected without corruption: in every state with
`count_pollfds >= max_poll_elements`, for every descriptor and interest mask,
the ADD_POLL_FD branch returns 1 and leaves the statics exactly as they were.
When `count_pollfds < max_poll_elements` (arrays allocated, descriptor a valid
index of `fd_lookup`) the add is accepted: it returns 0, the count grows by one
and the descriptor sits in the slot that was free, indexed by `fd_lookup`. -/
theorem add_at_capacity_rejected (g : Globals) (fd : Int) (len : Nat) :
    (g.count_pollfds ≥ g.max_poll_elements →
      callback_http_ADD_POLL_FD g fd len = some (1, g)) ∧
    (g.count_pollfds < g.max_poll_elements → wellFormed g →
      0 ≤ fd → fd < g.max_poll_elements →
      ∃ g', callback_http_ADD_POLL_FD g fd len = some (0, g') ∧
        g'.count_pollfds = g.count_pollfds + 1 ∧
        g'.max_poll_elements = g.max_poll_elements ∧
        load g'.pollfds g.count_pollfds = some ⟨fd, toShort (toInt32 len), 0⟩ ∧
        load g'.fd_lookup fd = some g.count_pollfds) := by
  refine ⟨add_reject g fd len, ?_⟩
  intro hc hwf h0 h1
  refine ⟨_, add_accept g fd len hwf hc h0 h1, rfl, rfl, ?_, ?_⟩
  · obtain ⟨hl1, hl2, hc0, -⟩ := hwf
    exact load_set_self hc0 (by omega)
  · obtain ⟨hl1, hl2, hc0, -⟩ := hwf
    exact load_set_self h0 (by omega)

/-- C3. Removal is swap-with-last and removes exactly the requested
descriptor: in a consistent mirror, for a descriptor `fd` held at slot `m`,
DEL_POLL_FD returns 0, the count is one smaller, `fd` no longer occurs in the
tracked slots, the entry that was last sits at slot `m` (when `m` was not the
last slot) with all three fields intact and `fd_lookup` pointing to `m`, every
other tracked entry is unchanged in its slot, the mirror is still consistent,
and the multiset of tracked `(fd, events)` pairs is the one before minus the
removed entry. -/
theorem del_swaps_with_last (g : Globals) (fd m : Int) (p : pollfd)
    (hwf : wellFormed g) (hcons : consistent g)
    (hm0 : 0 ≤ m) (hm1 : m < g.count_pollfds)
    (hp : load g.pollfds m = some p) (hfd : p.fd = fd) :
    ∃ g' last, callback_http_DEL_POLL_FD g fd = some (0, g') ∧
      load g.pollfds (g.count_pollfds - 1) = some last ∧
      g'.count_pollfds = g.count_pollfds - 1 ∧
      ¬ tracked g' fd ∧
      (m ≠ g.count_pollfds - 1 →
        load g'.pollfds m = some last ∧ load g'.fd_lookup last.fd = some m) ∧
      (∀ i : Int, 0 ≤ i → i < g.count_pollfds - 1 → i ≠ m →
        load g'.pollfds i = load g.pollfds i) ∧
      wellFormed g' ∧ consistent g' ∧
      (((g'.pollfds.take g'.count_pollfds.toNat).map
          (fun q => (q.fd, q.events)) : List (Int × Int)) : Multiset (Int × Int)) =
        (((g.pollfds.take g.count_pollfds.toNat).map
          (fun q => (q.fd, q.events)) : List (Int × Int)) : Multiset (Int × Int)).erase
            (p.fd, p.events) := by
  obtain ⟨last, hlast, hlk, hlm, heq⟩ := del_closed g fd m p hwf hcons hm0 hm1 hp hfd
  obtain ⟨r, hr, hwf', hcons'⟩ :=
    del_preserves g fd hwf hcons ((tracked_iff g fd).mpr ⟨m, hm0, hm1, p, hp, hfd⟩)
  have hr' : callback_http_DEL_POLL_FD g fd = some r := hr
  rw [heq] at hr'
  have hold := (consistent_iff g).mp hcons
  obtain ⟨hl1, hl2, hc0, hc1⟩ := hwf
  have hrg : r.2 = _ := (congrArg Prod.snd (Option.some.inj hr')).symm
  rw [hrg] at hwf' hcons'
  -- the multiset statement, from the swap-with-last permutation
  have hperm : (g.pollfds.take g.count_pollfds.toNat).Perm
      (p :: (g.pollfds.set m.toNat last).take (g.count_pollfds - 1).toNat) := by
    have hc : g.count_pollfds.toNat = (g.count_pollfds - 1).toNat + 1 := by omega
    rw [hc]
    apply take_succ_perm_swap
    · omega
    · exact (load_eq_some_iff.mp hp).2
    · exact (load_eq_some_iff.mp hlast).2
  refine ⟨_, last, heq, hlast, ?_, ?_, ?_, ?_, hwf', hcons', ?_⟩
  · split <;> rfl
  · intro ht
    obtain ⟨i, hi0, hi1, q, hq, hqfd⟩ := (tracked_iff _ fd).mp ht
    obtain ⟨q', hq', hql⟩ := (consistent_iff _).mp hcons' i hi0 hi1
    rw [hq] at hq'
    cases hq'
    split at hi1
    · simp only at hi1; omega
    · rename_i hz
      rw [if_neg hz] at hq hql
      simp only at hi1 hq hql
      by_cases him : i = m
      · subst him
        rw [load_set_self hi0 (by omega)] at hq
        cases hq
        rw [hqfd, hlm] at hlk
        cases hlk
        omega
      · rw [load_set_ne hm0 hi0 him] at hq
        obtain ⟨q', hq', hql'⟩ := hold i hi0 (by omega)
        rw [hq] at hq'
        cases hq'
        rw [hqfd, hlm] at hql'
        cases hql'
        exact him rfl
  · intro hne
    have hz : ¬ g.count_pollfds - 1 = 0 := by omega
    rw [if_neg hz]
    exact ⟨load_set_self hm0 (by omega),
      load_set_self (load_bounds hlk).1 (load_bounds hlk).2⟩
  · intro i hi0 hi1 him
    split
    · rfl
    · exact load_set_ne hm0 hi0 him
  · have hmap := hperm.map (fun q : pollfd => (q.fd, q.events))
    rw [List.map_cons] at hmap
    have hmul := Multiset.coe_eq_coe.mpr hmap
    rw [hmul, ← Multiset.cons_coe, Multiset.erase_cons_head]
    split
    · rename_i hz
      simp only [hz]
      simp
    · rfl

/-- The invariant on a capacity-3 mirror after three adds, two removals and a
further add. -/
theorem pollfd_mirror_consistent_witness :
    wellFormed emptyMirror ∧ emptyMirror.count_pollfds = 0 ∧
    admissible emptyMirror [.add 2 1, .add 0 4, .add 1 5, .del 2, .del 1, .add 2 3] ∧
    ∃ g', run emptyMirror [.add 2 1, .add 0 4, .add 1 5, .del 2, .del 1, .add 2 3]
        = some g' ∧ wellFormed g' ∧ consistent g' :=
  ⟨by decide, by decide, by decide,
   pollfd_mirror_consistent emptyMirror
     [.add 2 1, .add 0 4, .add 1 5, .del 2, .del 1, .add 2 3]
     (by decide) (by decide) (by decide) 6⟩

/-- A full capacity-3 mirror rejects descriptor 5; the empty one accepts
descriptor 2. -/
theorem add_at_capacity_rejected_witness :
    callback_http_ADD_POLL_FD fullMirror 5 1 = some (1, fullMirror) ∧
    ∃ g', callback_http_ADD_POLL_FD emptyMirror 2 1 = some (0, g') ∧
      g'.count_pollfds = emptyMirror.count_pollfds + 1 ∧
      g'.max_poll_elements = emptyMirror.max_poll_elements ∧
      load g'.pollfds emptyMirror.count_pollfds = some ⟨2, toShort (toInt32 (1 : Nat)), 0⟩ ∧
      load g'.fd_lookup 2 = some emptyMirror.count_pollfds :=
  ⟨(add_at_capacity_rejected fullMirror 5 1).1 (by decide),
   (add_at_capacity_rejected emptyMirror 2 1).2 (by decide) (by decide) (by decide)
     (by decide)⟩

/-- Removing descriptor 2 from slot 0 of the full capacity-3 mirror. -/
theorem del_swaps_with_last_witness :
    ∃ g' last, callback_http_DEL_POLL_FD fullMirror 2 = some (0, g') ∧
      load fullMirror.pollfds (fullMirror.count_pollfds - 1) = some last ∧
      g'.count_pollfds = fullMirror.count_pollfds - 1 ∧
      ¬ tracked g' 2 ∧
      ((0 : Int) ≠ fullMirror.count_pollfds - 1 →
        load g'.pollfds 0 = some last ∧ load g'.fd_lookup last.fd = some 0) ∧
      (∀ i : Int, 0 ≤ i → i < fullMirror.count_pollfds - 1 → i ≠ 0 →
        load g'.pollfds i = load fullMirror.pollfds i) ∧
      wellFormed g' ∧ consistent g' ∧
      (((g'.pollfds.take g'.count_pollfds.toNat).map
          (fun q => (q.fd, q.events)) : List (Int × Int)) : Multiset (Int × Int)) =
        (((fullMirror.pollfds.take fullMirror.count_pollfds.toNat).map
          (fun q => (q.fd, q.events)) : List (Int × Int)) : Multiset (Int × Int)).erase
            ((2 : Int), (1 : Int)) :=
  del_swaps_with_last fullMirror 2 0 ⟨2, 1, 0⟩ (by decide) (by decide) (by decide)
    (by decide) (by decide) rfl

/-! ## `strcmp` against a literal -/

theorem char_sub_ne_zero {a b : Char} (h : a ≠ b) : (a.toNat : Int) - (b.toNat : Int) ≠ 0 := by
  intro h0
  apply h
  apply Char.ext
  apply UInt32.ext
  have : a.toNat = b.toNat := by omega
  exact this

theorem strcmp_cstr_eq_zero_iff (lit : List Char) : NUL ∉ lit → ∀ mem : List Char,
    (strcmp mem (cstr lit) = some 0 ↔ mem.take (lit.length + 1) = cstr lit) := by
  induction lit with
  | nil =>
    intro _ mem
    cases mem with
    | nil => simp [strcmp, cstr]
    | cons a as =>
      by_cases ha : a = NUL
      · simp [strcmp, cstr, ha]
      · simp [strcmp, cstr, ha, char_sub_ne_zero ha]
  | cons b bs ih =>
    intro hnul mem
    have hb : b ≠ NUL := fun h => hnul (by simp [h])
    have hbs : NUL ∉ bs := fun h => hnul (by simp [h])
    cases mem with
    | nil => simp [strcmp, cstr]
    | cons a as =>
      by_cases hab : a = b
      · subst hab
        have := ih hbs as
        simp only [cstr] at this
        simp [strcmp, cstr, hb, this]
      · simp [strcmp, cstr, hab, char_sub_ne_zero hab]

theorem strcmp_cstr_isSome (lit : List Char) : ∀ mem : List Char,
    lit.length < mem.length → (strcmp mem (cstr lit)).isSome = true := by
  induction lit with
  | nil =>
    intro mem h
    cases mem with
    | nil => simp at h
    | cons a as =>
      by_cases ha : a = NUL <;> simp [strcmp, cstr, ha]
  | cons b bs ih =>
    intro mem h
    cases mem with
    | nil => simp at h
    | cons a as =>
      by_cases hab : a = b
      · subst hab
        by_cases ha : a = NUL
        · simp [strcmp, cstr, ha]
        · have hc := ih as (by simpa using h)
          simp only [cstr] at hc
          simp [strcmp, cstr, ha, hc]
      · simp [strcmp, cstr, hab]

theorem nul_not_mem_reset_cmd : NUL ∉ reset_cmd := by decide

/-- The RECEIVE branch in closed form, for a payload of at least 6 bytes that
the engine delivers followed by a zero byte. -/
theorem receive_closed (pss : per_session_data__dumb_increment)
    (payload rest : List Char) (hlen : 6 ≤ payload.length) :
    callback_notification_RECEIVE pss (payload ++ NUL :: rest) payload.length =
      some { ret := 0,
             pss := if payload = reset_cmd ∨ payload.take 7 = reset_cmd ++ [NUL]
                    then { number := 0 } else pss,
             written := [] } := by
  have hsome := strcmp_cstr_isSome reset_cmd (payload ++ NUL :: rest)
    (by simp [reset_cmd]; omega)
  obtain ⟨c, hc⟩ := Option.isSome_iff_exists.mp hsome
  have hiff := strcmp_cstr_eq_zero_iff reset_cmd nul_not_mem_reset_cmd
    (payload ++ NUL :: rest)
  have hlen' : ¬ payload.length < 6 := by omega
  have htake : (payload ++ NUL :: rest).take 7 = cstr reset_cmd ↔
      (payload = reset_cmd ∨ payload.take 7 = reset_cmd ++ [NUL]) := by
    by_cases h6 : payload.length = 6
    · have h1 : (payload ++ NUL :: rest).take 7 = payload ++ [NUL] := by
        have h2 : payload.take 7 = payload := List.take_of_length_le (by omega)
        rw [List.take_append_eq_append_take, h6, h2]
        rfl
      have h2 : payload.take 7 = payload := List.take_of_length_le (by omega)
      rw [h1, h2]
      constructor
      · intro h
        left
        exact List.append_cancel_right h
      · rintro (h | h)
        · rw [h]; rfl
        · have := congrArg List.length h
          simp [reset_cmd] at this
          omega
    · have h1 : (payload ++ NUL :: rest).take 7 = payload.take 7 := by
        rw [List.take_append_eq_append_take]
        have : 7 - payload.length = 0 := by omega
        simp [this]
      rw [h1]
      constructor
      · intro h; right; exact h
      · rintro (h | h)
        · exfalso; apply h6; rw [h]; rfl
        · exact h
  have h7 : reset_cmd.length + 1 = 7 := rfl
  rw [h7, htake, hc] at hiff
  by_cases hz : c = 0
  · have hcond := hiff.mp (by rw [hz])
    simp [callback_notification_RECEIVE, hlen', hc, hz, hcond]
  · have hcond : ¬ (payload = reset_cmd ∨ payload.take 7 = reset_cmd ++ [NUL]) := by
      intro h
      have := hiff.mpr h
      exact hz (Option.some.inj this)
    simp only [callback_notification_RECEIVE, hlen', hc, if_false, if_neg hcond]
    simp [hz]

/-! ## The notification protocol -/

/-- C4. Reset command: for every prior counter value, when the RECEIVE branch
of `callback_notification` is handed a payload that is exactly the 6 bytes
`reset\n` (followed in memory by the zero byte that ends the text for
`strcmp`), the counter is 0 afterwards and the callback returns 0. -/
theorem reset_command_zeroes_counter (pss : per_session_data__dumb_increment)
    (rest : List Char) :
    callback_notification_RECEIVE pss (reset_cmd ++ NUL :: rest) 6 =
      some { ret := 0, pss := { number := 0 }, written := [] } := by
  have h := receive_closed pss reset_cmd rest (by decide)
  simpa using h

/-- C5, counterexample. A 10-byte payload that is not `reset\n` but begins with
`reset\n` followed by a zero byte and further data: the RECEIVE branch sets the
counter 7 to 0. -/
theorem reset_prefix_payload_resets :
    6 ≤ (reset_cmd ++ [NUL, 'a', 'b', 'c']).length ∧
    reset_cmd ++ [NUL, 'a', 'b', 'c'] ≠ reset_cmd ∧
    callback_notification_RECEIVE { number := 7 }
      ((reset_cmd ++ [NUL, 'a', 'b', 'c']) ++ [NUL])
      (reset_cmd ++ [NUL, 'a', 'b', 'c']).length =
        some { ret := 0, pss := { number := 0 }, written := [] } ∧
    ({ number := 0 } : per_session_data__dumb_increment) ≠ { number := 7 } := by
  decide

/-- C5, amended. For every prior counter value and every received payload of
length >= 6 bytes that is not exactly `reset\n` and does not begin with
`reset\n` followed by a zero byte, the RECEIVE branch leaves the counter
unchanged and returns 0. -/
theorem non_reset_payload_ignored (pss : per_session_data__dumb_increment)
    (payload rest : List Char) (hlen : 6 ≤ payload.length)
    (hne : payload ≠ reset_cmd) (hpre : payload.take 7 ≠ reset_cmd ++ [NUL]) :
    callback_notification_RECEIVE pss (payload ++ NUL :: rest) payload.length =
      some { ret := 0, pss := pss, written := [] } := by
  rw [receive_closed pss payload rest hlen]
  simp [hne, hpre]

/-- The 7-byte payload `reset\nx` leaves the counter 7 alone. -/
theorem non_reset_payload_ignored_witness :
    callback_notification_RECEIVE { number := 7 }
      (['r', 'e', 's', 'e', 't', '\n', 'x'] ++ NUL :: ['j', 'u', 'n', 'k'])
      (['r', 'e', 's', 'e', 't', '\n', 'x'] : List Char).length =
        some { ret := 0, pss := { number := 7 }, written := [] } :=
  non_reset_payload_ignored { number := 7 } ['r', 'e', 's', 'e', 't', '\n', 'x']
    ['j', 'u', 'n', 'k'] (by decide) (by decide) (by decide)

/-- C6, counterexample. At the counter value `INT_MAX` the write-ready branch
does not leave the counter at `N + 1`: the 32-bit increment wraps. -/
theorem push_counter_wraps_at_int_max :
    (callback_notification_SERVER_WRITEABLE 0 (fun p => (p.length : Int))
      { number := 2147483647 }).pss.number = -2147483648 ∧
    (callback_notification_SERVER_WRITEABLE 0 (fun p => (p.length : Int))
      { number := 2147483647 }).pss.number ≠ 2147483647 + 1 := by
  decide

/-- C6, amended. For every counter value `N` below `INT_MAX`, the write-ready
branch hands the engine exactly the text `not`, the decimal rendering of `N`
(the value before the increment) and a newline, leaves the counter at `N + 1`,
returns -1 whenever the engine reports fewer bytes written than the payload
length, and returns 0 on a full write outside test mode. -/
theorem push_sends_counter (close_testing : Int) (libwebsocket_write : List Char → Int)
    (N : Int) (hlo : -2147483648 ≤ N) (hhi : N < 2147483647) :
    (callback_notification_SERVER_WRITEABLE close_testing libwebsocket_write
      { number := N }).written = [['n', 'o', 't'] ++ fmt_d N ++ ['\n']] ∧
    (callback_notification_SERVER_WRITEABLE close_testing libwebsocket_write
      { number := N }).pss.number = N + 1 ∧
    (libwebsocket_write (['n', 'o', 't'] ++ fmt_d N ++ ['\n']) <
        ((['n', 'o', 't'] ++ fmt_d N ++ ['\n']).length : Int) →
      (callback_notification_SERVER_WRITEABLE close_testing libwebsocket_write
        { number := N }).ret = -1) ∧
    (((['n', 'o', 't'] ++ fmt_d N ++ ['\n']).length : Int) ≤
        libwebsocket_write (['n', 'o', 't'] ++ fmt_d N ++ ['\n']) →
      close_testing = 0 →
      (callback_notification_SERVER_WRITEABLE close_testing libwebsocket_write
        { number := N }).ret = 0) := by
  have hN : toInt32 (N + 1) = N + 1 := by unfold toInt32; omega
  refine ⟨?_, ?_, ?_, ?_⟩
  · unfold callback_notification_SERVER_WRITEABLE
    simp only
    split
    · rfl
    · split <;> rfl
  · unfold callback_notification_SERVER_WRITEABLE
    simp only
    split
    · exact hN
    · split <;> exact hN
  · intro hm
    unfold callback_notification_SERVER_WRITEABLE
    simp only
    rw [if_pos hm]
  · intro hm hct
    unfold callback_notification_SERVER_WRITEABLE
    simp only
    rw [if_neg (by omega), if_neg (by simp [hct])]

/-- The push at counter 41, with a full write and with a write one byte short. -/
theorem push_sends_counter_witness :
    (callback_notification_SERVER_WRITEABLE 0 (fun p => (p.length : Int))
      { number := 41 }).written = [['n', 'o', 't'] ++ fmt_d 41 ++ ['\n']] ∧
    (callback_notification_SERVER_WRITEABLE 0 (fun p => (p.length : Int))
      { number := 41 }).pss.number = 41 + 1 ∧
    (callback_notification_SERVER_WRITEABLE 0 (fun p => (p.length : Int))
      { number := 41 }).ret = 0 ∧
    (callback_notification_SERVER_WRITEABLE 0 (fun p => (p.length : Int) - 1)
      { number := 41 }).ret = -1 :=
  ⟨(push_sends_counter 0 (fun p => (p.length : Int)) 41 (by decide) (by decide)).1,
   (push_sends_counter 0 (fun p => (p.length : Int)) 41 (by decide) (by decide)).2.1,
   (push_sends_counter 0 (fun p => (p.length : Int)) 41 (by decide) (by decide)).2.2.2
     (by decide) rfl,
   (push_sends_counter 0 (fun p => (p.length : Int) - 1) 41 (by decide) (by decide)).2.2.1
     (by decide)⟩

theorem afterPushes_number (close_testing : Int) (libwebsocket_write : List Char → Int)
    (pss : per_session_data__dumb_increment) : ∀ k : Nat, k ≤ 50 →
    (afterPushes close_testing libwebsocket_write pss k).number = (k : Int) := by
  intro k
  induction k with
  | zero => intro _; rfl
  | succ k ih =>
    intro hk
    have h := ih (by omega)
    have hN : toInt32 ((k : Int) + 1) = (k : Int) + 1 := by unfold toInt32; omega
    simp only [afterPushes, callback_notification_SERVER_WRITEABLE, h]
    split
    · simpa using hN
    · split <;> simpa using hN

/-- C7. Test-mode connection cap: with `close_testing` non-zero, for a
connection that starts at LWS_CALLBACK_ESTABLISHED, receives no reset and whose
writes all succeed, the write-ready callback returns 0 for each of the first 49
pushes and -1 on the 50th; the counter is `k` after `k` pushes, so it reaches 50
exactly with the 50th push and not before. -/
theorem test_mode_closes_at_fifty (close_testing : Int)
    (libwebsocket_write : List Char → Int) (pss : per_session_data__dumb_increment)
    (htest : close_testing ≠ 0)
    (hwrite : ∀ p : List Char, (p.length : Int) ≤ libwebsocket_write p) :
    (∀ k : Nat, k < 49 → pushReturn close_testing libwebsocket_write pss k = 0) ∧
    pushReturn close_testing libwebsocket_write pss 49 = -1 ∧
    (afterPushes close_testing libwebsocket_write pss 50).number = 50 ∧
    (∀ k : Nat, k < 50 →
      (afterPushes close_testing libwebsocket_write pss k).number ≠ 50) := by
  have key : ∀ k : Nat, k ≤ 49 →
      pushReturn close_testing libwebsocket_write pss k = if k = 49 then -1 else 0 := by
    intro k hk
    have h := afterPushes_number close_testing libwebsocket_write pss k (by omega)
    have hN : toInt32 ((k : Int) + 1) = (k : Int) + 1 := by unfold toInt32; omega
    simp only [pushReturn, callback_notification_SERVER_WRITEABLE, h, hN]
    rw [if_neg (by have := hwrite (['n', 'o', 't'] ++ fmt_d k ++ ['\n']); omega)]
    by_cases h49 : k = 49
    · subst h49
      simp [htest]
    · have : ¬ ((k : Int) + 1 = 50) := by omega
      simp [h49, this]
  refine ⟨?_, ?_, ?_, ?_⟩
  · intro k hk
    rw [key k (by omega), if_neg (by omega)]
  · rw [key 49 (by omega), if_pos rfl]
  · exact afterPushes_number close_testing libwebsocket_write pss 50 (by omega)
  · intro k hk
    rw [afterPushes_number close_testing libwebsocket_write pss k (by omega)]
    omega

/-- Test mode with an engine that always writes the whole payload. -/
theorem test_mode_closes_at_fifty_witness :
    (∀ k : Nat, k < 49 → pushReturn 1 (fun p => (p.length : Int)) { number := 7 } k = 0) ∧
    pushReturn 1 (fun p => (p.length : Int)) { number := 7 } 49 = -1 ∧
    (afterPushes 1 (fun p => (p.length : Int)) { number := 7 } 50).number = 50 ∧
    (∀ k : Nat, k < 50 →
      (afterPushes 1 (fun p => (p.length : Int)) { number := 7 } k).number ≠ 50) :=
  test_mode_closes_at_fifty 1 (fun p => (p.length : Int)) { number := 7 } (by decide)
    (fun _ => le_refl _)

/-! ## The driver tick -/

theorem service_loop_ret (service : pollfd → Int) (pollfds : List pollfd) :
    ∀ (ns : List Nat) (r : Int × List pollfd),
      service_loop service pollfds ns = some r → r.1 = 0 ∨ r.1 = 1 := by
  intro ns
  induction ns with
  | nil => intro r h; simp [service_loop] at h; left; rw [← h]
  | cons n ns ih =>
    intro r h
    unfold service_loop at h
    cases hp : pollfds[n]? with
    | none => simp [hp] at h
    | some p =>
      simp only [hp, Option.bind_eq_bind, Option.some_bind] at h
      split at h
      · split at h
        · right; cases h; rfl
        · cases hr : service_loop service pollfds ns with
          | none => simp [hr] at h
          | some r' =>
            simp only [hr, Option.some_bind] at h
            cases h
            exact ih r' hr
      · exact ih r h

/-- Whenever `poll` does not fail, `notification_handle` returns 0 or 1: no
failure of the engine's service entry point yields a negative value. -/
theorem notification_handle_ret_of_poll_ok (env : TickEnv) (olds : Nat) (g : Globals)
    (r : TickResult) (h : notification_handle env olds g = some r)
    (hpoll : 0 ≤ (env.poll g.pollfds g.count_pollfds).1) : r.ret = 0 ∨ r.ret = 1 := by
  unfold notification_handle at h
  simp only at h
  rw [if_neg (by omega)] at h
  split at h
  · cases hr : service_loop env.libwebsocket_service_fd
        (env.poll g.pollfds g.count_pollfds).2 (List.range g.count_pollfds.toNat) with
    | none => simp [hr] at h
    | some r' =>
      simp only [hr, Option.bind_eq_bind, Option.some_bind] at h
      cases h
      exact service_loop_ret _ _ _ r' hr
  · cases h; left; rfl

/-- C8, at the failing input. `poll` reports a ready descriptor, the engine's
service entry point returns -1 for it (non-zero `revents`), and
`notification_handle` returns 1, which is not negative. -/
theorem service_error_returns_positive :
    (failingTickEnv.poll fullMirror.pollfds fullMirror.count_pollfds).1 = 1 ∧
    (∃ p ∈ (failingTickEnv.poll fullMirror.pollfds fullMirror.count_pollfds).2,
      p.revents ≠ 0 ∧ failingTickEnv.libwebsocket_service_fd p < 0) ∧
    (notification_handle failingTickEnv 0 fullMirror).map (fun r => r.ret) = some 1 ∧
    ¬ ((1 : Int) < 0) := by
  decide

/-! ## The HTTP request branch -/

theorem strcmp_cstring (lit : List Char) : NUL ∉ lit → ∀ path rest : List Char,
    NUL ∉ path →
    ∃ c, strcmp (path ++ NUL :: rest) (cstr lit) = some c ∧ (c = 0 ↔ path = lit) := by
  induction lit with
  | nil =>
    intro _ path rest hp
    cases path with
    | nil => exact ⟨0, by simp [strcmp, cstr], by simp⟩
    | cons a as =>
      have ha : a ≠ NUL := fun h => hp (by simp [h])
      exact ⟨(a.toNat : Int) - (NUL.toNat : Int), by simp [strcmp, cstr, ha],
        by simp [char_sub_ne_zero ha]⟩
  | cons b bs ih =>
    intro hl path rest hp
    have hb : b ≠ NUL := fun h => hl (by simp [h])
    have hbs : NUL ∉ bs := fun h => hl (by simp [h])
    cases path with
    | nil =>
      have hb' : NUL ≠ b := fun h => hb h.symm
      exact ⟨(NUL.toNat : Int) - (b.toNat : Int), by simp [strcmp, cstr, hb'],
        by simp [char_sub_ne_zero hb']⟩
    | cons a as =>
      have has : NUL ∉ as := fun h => hp (by simp [h])
      by_cases hab : a = b
      · subst hab
        obtain ⟨c, hc, hiff⟩ := ih hbs as rest has
        simp only [cstr] at hc
        exact ⟨c, by simp [strcmp, cstr, hb, hc], by simp [hiff]⟩
      · exact ⟨(a.toNat : Int) - (b.toNat : Int), by simp [strcmp, cstr, hab],
          by simp [char_sub_ne_zero hab, hab]⟩

/-- C9. Whitelist resolution: for every requested path (a C string) other than
`/leaf.jpg`, the HTTP branch of `callback_http` hands the engine's file-serving
primitive the file `resource_path ++ urlpath` and the MIME type of one table
entry, whose index lies inside the 3-entry table; that entry is the whitelist
entry whose `urlpath` equals the request if one exists, and for a path absent
from the whitelist it is the last entry, file `./test.html` with MIME type
`text/html`. -/
theorem whitelist_resolution (env : HttpEnv) (pss : per_session_data__http)
    (path rest : List Char) (hnul : NUL ∉ path) (hleaf : path ≠ leaf_url) :
    ∃ n e, whitelist[n]? = some e ∧ n < 3 ∧
      (∀ e' ∈ whitelist, e'.urlpath = path → e' = e) ∧
      ((∀ e' ∈ whitelist, e'.urlpath ≠ path) →
        n = 2 ∧ resource_path ++ e.urlpath = "./test.html".toList ∧
        e.mimetype = "text/html".toList) ∧
      callback_http_HTTP env pss (path ++ NUL :: rest) =
        some { ret := if env.libwebsockets_serve_http_file
                          (resource_path ++ e.urlpath) e.mimetype ≠ 0 then -1 else 0,
               pss := pss,
               calls := [.libwebsockets_serve_http_file
                          (resource_path ++ e.urlpath) e.mimetype] } := by
  obtain ⟨c0, h0, hz0⟩ := strcmp_cstring leaf_url (by decide) path rest hnul
  obtain ⟨c1, h1, hz1⟩ := strcmp_cstring "/favicon.ico".toList (by decide) path rest hnul
  obtain ⟨c2, h2, hz2⟩ :=
    strcmp_cstring "/libwebsockets.org-logo.png".toList (by decide) path rest hnul
  have hc0 : c0 ≠ 0 := fun h => hleaf (hz0.mp h)
  have htake : whitelist.take (whitelist.length - 1) =
      [⟨"/favicon.ico".toList, "image/x-icon".toList⟩,
       ⟨"/libwebsockets.org-logo.png".toList, "image/png".toList⟩] := rfl
  have hw0 : whitelist[0]? = some ⟨"/favicon.ico".toList, "image/x-icon".toList⟩ := rfl
  have hw1 : whitelist[1]? =
      some ⟨"/libwebsockets.org-logo.png".toList, "image/png".toList⟩ := rfl
  have hw2 : whitelist[2]? = some ⟨"/test.html".toList, "text/html".toList⟩ := rfl
  by_cases hp1 : path = "/favicon.ico".toList
  · have hc1 : c1 = 0 := hz1.mpr hp1
    refine ⟨0, ⟨"/favicon.ico".toList, "image/x-icon".toList⟩, rfl, by omega, ?_, ?_, ?_⟩
    · intro e' he' hu
      subst hp1
      revert hu
      revert e'
      decide
    · intro hall
      exact absurd hp1.symm
        (hall ⟨"/favicon.ico".toList, "image/x-icon".toList⟩ (by decide))
    · unfold callback_http_HTTP
      simp only [h0, htake, whitelist_scan, h1, hc1, Option.bind_eq_bind, Option.some_bind,
        if_neg hc0, if_true, hw0]
      split <;> rfl
  · have hc1 : c1 ≠ 0 := fun h => hp1 (hz1.mp h)
    by_cases hp2 : path = "/libwebsockets.org-logo.png".toList
    · have hc2 : c2 = 0 := hz2.mpr hp2
      refine ⟨1, ⟨"/libwebsockets.org-logo.png".toList, "image/png".toList⟩, rfl,
        by omega, ?_, ?_, ?_⟩
      · intro e' he' hu
        subst hp2
        revert hu
        revert e'
        decide
      · intro hall
        exact absurd hp2.symm
          (hall ⟨"/libwebsockets.org-logo.png".toList, "image/png".toList⟩ (by decide))
      · unfold callback_http_HTTP
        simp only [h0, htake, whitelist_scan, h1, h2, hc2, Option.bind_eq_bind,
          Option.some_bind, if_neg hc0, if_neg hc1, if_true, hw1]
        split <;> rfl
    · have hc2 : c2 ≠ 0 := fun h => hp2 (hz2.mp h)
      refine ⟨2, ⟨"/test.html".toList, "text/html".toList⟩, rfl, by omega, ?_, ?_, ?_⟩
      · intro e' he' hu
        have hmem : e' = ⟨"/favicon.ico".toList, "image/x-icon".toList⟩ ∨
            e' = ⟨"/libwebsockets.org-logo.png".toList, "image/png".toList⟩ ∨
            e' = ⟨"/test.html".toList, "text/html".toList⟩ := by
          simpa [whitelist] using he'
        rcases hmem with h | h | h
        · subst h; exact absurd hu.symm hp1
        · subst h; exact absurd hu.symm hp2
        · exact h
      · intro _
        exact ⟨rfl, by decide, rfl⟩
      · unfold callback_http_HTTP
        simp only [h0, htake, whitelist_scan, h1, h2, Option.bind_eq_bind,
          Option.some_bind, if_neg hc0, if_neg hc1, if_neg hc2, hw2]
        split <;> rfl

/-- A path outside the whitelist resolves to the default entry. -/
theorem whitelist_resolution_witness :
    ∃ n e, whitelist[n]? = some e ∧ n < 3 ∧
      (∀ e' ∈ whitelist, e'.urlpath = "/../etc/passwd".toList → e' = e) ∧
      ((∀ e' ∈ whitelist, e'.urlpath ≠ "/../etc/passwd".toList) →
        n = 2 ∧ resource_path ++ e.urlpath = "./test.html".toList ∧
        e.mimetype = "text/html".toList) ∧
      callback_http_HTTP bigFileEnv { fd := 0 } ("/../etc/passwd".toList ++ NUL :: []) =
        some { ret := if bigFileEnv.libwebsockets_serve_http_file
                          (resource_path ++ e.urlpath) e.mimetype ≠ 0 then -1 else 0,
               pss := { fd := 0 },
               calls := [.libwebsockets_serve_http_file
                          (resource_path ++ e.urlpath) e.mimetype] } :=
  whitelist_resolution bigFileEnv { fd := 0 } "/../etc/passwd".toList [] (by decide)
    (by decide)

/-- C10, at the failing input. For a backing file of 2^32 bytes the header
block emitted for `/leaf.jpg` carries `Content-Length: 0`, not the decimal
rendering `4294967296` of the file's size. -/
theorem leaf_content_length_truncated :
    callback_http_HTTP bigFileEnv { fd := 0 } (cstr leaf_url) =
      some { ret := 0, pss := { fd := 5 },
             calls := [.open_rdonly "./leaf.jpg".toList, .fstat 5,
               .libwebsocket_write
                 ("HTTP/1.0 200 OK\r\nServer: libwebsockets\r\n".toList ++
                  "Content-Type: image/jpeg\r\nContent-Length: 0\r\n\r\n".toList),
               .libwebsocket_callback_on_writable] } ∧
    bigFileEnv.st_size = 4294967296 ∧
    fmt_u 4294967296 = "4294967296".toList ∧
    fmt_u 4294967296 ≠ "0".toList := by
  decide

/-! ## The manual file transfer -/

theorem body_bail_iff (file : List Char) (a : WriteableAnswers) (pos : Int) :
    (writeable_body file a pos).bail = true ↔ (a.read ≤ 0 ∨ a.libwebsocket_write < 0) := by
  unfold writeable_body
  simp only
  split
  · simp; omega
  · split
    · simp; omega
    · split
      · simp; omega
      · split <;> (simp; omega)

theorem body_short_write (file : List Char) (a : WriteableAnswers) (o : Int) (ho : 0 ≤ o)
    (hn : 0 < a.read) (hm0 : 0 ≤ a.libwebsocket_write)
    (hmn : a.libwebsocket_write < a.read) :
    writeable_body file a o =
      { bail := false, offset := o + a.libwebsocket_write,
        calls := [.read o, .libwebsocket_write ((file.drop o.toNat).take a.read.toNat),
                  .lseek_cur (a.libwebsocket_write - a.read)],
        accepted := (file.drop o.toNat).take a.libwebsocket_write.toNat } := by
  unfold writeable_body
  simp only
  rw [if_neg (by omega), if_neg (by omega), if_neg (by omega), if_pos (by omega)]
  have h1 : lseek_cur (o + a.read) (a.libwebsocket_write - a.read) =
      o + a.libwebsocket_write := by
    unfold lseek_cur
    rw [if_neg (by omega)]
    omega
  have h2 : min a.libwebsocket_write.toNat a.read.toNat = a.libwebsocket_write.toNat := by
    omega
  rw [h1, List.take_take, h2]

theorem body_full (file : List Char) (a : WriteableAnswers) (o : Int)
    (hn : 0 < a.read) (hmn : a.libwebsocket_write = a.read) :
    writeable_body file a o =
      { bail := false, offset := o + a.read,
        calls := [.read o, .libwebsocket_write ((file.drop o.toNat).take a.read.toNat)],
        accepted := (file.drop o.toNat).take a.read.toNat } := by
  unfold writeable_body
  simp only
  rw [if_neg (by omega), if_neg (by omega), if_neg (by omega), if_neg (by simp [hmn])]
  rw [hmn, List.take_take, Nat.min_self]

theorem body_accepted (file : List Char) (a : WriteableAnswers) (o : Int) (ho : 0 ≤ o)
    (hmn : a.libwebsocket_write ≤ a.read) :
    ((writeable_body file a o).bail = true → (writeable_body file a o).accepted = []) ∧
    ((writeable_body file a o).bail = false →
      o ≤ (writeable_body file a o).offset ∧
      (writeable_body file a o).accepted =
        (file.drop o.toNat).take ((writeable_body file a o).offset - o).toNat) := by
  constructor
  · intro _
    unfold writeable_body
    simp only
    split
    · rfl
    · split
      · rfl
      · split
        · rfl
        · rename_i h1 h2 h3
          have hb := (body_bail_iff file a o).mp ‹_›
          omega
  · intro hb
    have hnb : ¬ (a.read ≤ 0 ∨ a.libwebsocket_write < 0) := by
      rw [← body_bail_iff file a o, hb]; simp
    by_cases hfull : a.libwebsocket_write = a.read
    · rw [body_full file a o (by omega) hfull]
      simp only
      refine ⟨by omega, ?_⟩
      congr 1
      omega
    · rw [body_short_write file a o ho (by omega) (by omega) (by omega)]
      simp only
      refine ⟨by omega, ?_⟩
      congr 1
      omega

theorem writeable_loop_contiguous (file : List Char) (fd : Int) :
    ∀ (answers : List WriteableAnswers) (o : Int), 0 ≤ o →
      (∀ b ∈ answers, b.libwebsocket_write ≤ b.read) →
      (∃ b ∈ answers, b.lws_send_pipe_choked = true ∨ b.read ≤ 0 ∨
        b.libwebsocket_write < 0) →
      ∃ r k, callback_http_HTTP_WRITEABLE file fd answers o = some r ∧
        r.accepted = (file.drop o.toNat).take k ∧
        (r.ret = 0 → o ≤ r.offset ∧ k = (r.offset - o).toNat) := by
  intro answers
  induction answers with
  | nil => intro o _ _ h; obtain ⟨b, hb, _⟩ := h; simp at hb
  | cons a rest ih =>
    intro o ho hle hend
    have hacc := body_accepted file a o ho (hle a (by simp))
    unfold callback_http_HTTP_WRITEABLE
    simp only
    by_cases hbail : (writeable_body file a o).bail = true
    · rw [if_pos hbail]
      exact ⟨_, 0, rfl, by simpa using hacc.1 hbail, by intro h; simp at h⟩
    · have hbail' : (writeable_body file a o).bail = false := by simpa using hbail
      rw [if_neg hbail]
      obtain ⟨ho', hacc'⟩ := hacc.2 hbail'
      by_cases hch : a.lws_send_pipe_choked = true
      · rw [if_pos hch]
        exact ⟨_, _, rfl, hacc', fun _ => ⟨ho', rfl⟩⟩
      · rw [if_neg hch]
        have hend' : ∃ b ∈ rest, b.lws_send_pipe_choked = true ∨ b.read ≤ 0 ∨
            b.libwebsocket_write < 0 := by
          obtain ⟨b, hb, hprop⟩ := hend
          rcases List.mem_cons.mp hb with h | h
          · subst h
            rcases hprop with h1 | h2
            · exact absurd h1 hch
            · exact absurd ((body_bail_iff file b o).mpr h2) hbail
          · exact ⟨b, h, hprop⟩
        obtain ⟨r, k, hr, hk, hret⟩ := ih (writeable_body file a o).offset (by omega)
          (fun b hb => hle b (by simp [hb])) hend'
        refine ⟨_, ((writeable_body file a o).offset - o).toNat + k, by rw [hr]; rfl,
          ?_, ?_⟩
        · simp only
          rw [hacc', hk, List.take_add, List.drop_drop]
          congr 3
          omega
        · intro h0
          obtain ⟨h1, h2⟩ := hret h0
          simp only
          refine ⟨by omega, ?_⟩
          omega

/-- C11. Partial-write resume: in the LWS_CALLBACK_HTTP_WRITEABLE loop, for
every file offset `o` and every chunk of `n > 0` bytes read at `o`:
after a partial write that accepts `m` bytes, `0 <= m < n`, the file is sought
back by exactly the shortfall (`lseek` by `m - n`), the offset is `o + m`, and
the next pass of the loop (or the next write-ready callback, when the pipe is
choked) reads from `o + m`; after a full write (`m = n`) the offset is `o + n`
and no seek occurs; a read result `<= 0` or a write result `< 0` ends the
transfer: the descriptor is closed and the callback returns -1; and over a whole
run in which the transport never reports more than it was handed, the bytes it
accepted are exactly the bytes of the file from `o` on, in order, none skipped
and none sent twice, up to the final offset when the callback returns 0. -/
theorem partial_write_resumes (file : List Char) (fd o : Int) (a : WriteableAnswers)
    (rest : List WriteableAnswers) (ho : 0 ≤ o) :
    (0 < a.read → 0 ≤ a.libwebsocket_write → a.libwebsocket_write < a.read →
      writeable_body file a o =
        { bail := false, offset := o + a.libwebsocket_write,
          calls := [.read o,
                    .libwebsocket_write ((file.drop o.toNat).take a.read.toNat),
                    .lseek_cur (-(a.read - a.libwebsocket_write))],
          accepted := (file.drop o.toNat).take a.libwebsocket_write.toNat } ∧
      (a.lws_send_pipe_choked = false →
        callback_http_HTTP_WRITEABLE file fd (a :: rest) o =
          (callback_http_HTTP_WRITEABLE file fd rest (o + a.libwebsocket_write)).map
            fun r => { r with
              calls := (writeable_body file a o).calls ++ r.calls,
              accepted := (writeable_body file a o).accepted ++ r.accepted }) ∧
      (a.lws_send_pipe_choked = true →
        callback_http_HTTP_WRITEABLE file fd (a :: rest) o =
          some { ret := 0, offset := o + a.libwebsocket_write,
                 calls := (writeable_body file a o).calls ++
                   [.libwebsocket_callback_on_writable],
                 accepted := (writeable_body file a o).accepted })) ∧
    (0 < a.read → a.libwebsocket_write = a.read →
      writeable_body file a o =
        { bail := false, offset := o + a.read,
          calls := [.read o,
                    .libwebsocket_write ((file.drop o.toNat).take a.read.toNat)],
          accepted := (file.drop o.toNat).take a.read.toNat }) ∧
    ((a.read ≤ 0 ∨ a.libwebsocket_write < 0) →
      ∃ r, callback_http_HTTP_WRITEABLE file fd (a :: rest) o = some r ∧
        r.ret = -1 ∧ r.calls.getLast? = some (.close fd)) ∧
    ((∀ b ∈ a :: rest, b.libwebsocket_write ≤ b.read) →
      (∃ b ∈ a :: rest, b.lws_send_pipe_choked = true ∨ b.read ≤ 0 ∨
        b.libwebsocket_write < 0) →
      ∃ r k, callback_http_HTTP_WRITEABLE file fd (a :: rest) o = some r ∧
        r.accepted = (file.drop o.toNat).take k ∧
        (r.ret = 0 → o ≤ r.offset ∧ k = (r.offset - o).toNat)) := by
  refine ⟨?_, ?_, ?_, ?_⟩
  · intro hn hm0 hmn
    have hb := body_short_write file a o ho hn hm0 hmn
    have hneg : -(a.read - a.libwebsocket_write) = a.libwebsocket_write - a.read := by
      omega
    have hbail : ¬ (writeable_body file a o).bail = true := by
      rw [body_bail_iff]; omega
    have hoff : (writeable_body file a o).offset = o + a.libwebsocket_write := by
      rw [hb]
    refine ⟨by rw [hneg]; exact hb, ?_, ?_⟩
    · intro hch
      rw [callback_http_HTTP_WRITEABLE]
      rw [if_neg hbail, if_neg (by simp [hch]), hoff]
    · intro hch
      rw [callback_http_HTTP_WRITEABLE]
      rw [if_neg hbail, if_pos hch, hoff]
  · intro hn hmn
    exact body_full file a o hn hmn
  · intro hbad
    have hbail := (body_bail_iff file a o).mpr hbad
    refine ⟨_, by rw [callback_http_HTTP_WRITEABLE]; rw [if_pos hbail], rfl, ?_⟩
    simp
  · intro hle hend
    exact writeable_loop_contiguous file fd (a :: rest) o ho hle hend

/-- A ten-byte file sent from offset 0: a chunk of 4 of which 1 byte is
accepted, a chunk of 4 accepted whole, a read at end of file, and the run made
of the first two passes. -/
theorem partial_write_resumes_witness :
    (writeable_body tenBytes ⟨4, 1, false⟩ 0).offset = 1 ∧
    (writeable_body tenBytes ⟨4, 1, false⟩ 0).calls =
      [.read 0, .libwebsocket_write ['0', '1', '2', '3'], .lseek_cur (-3)] ∧
    (writeable_body tenBytes ⟨4, 4, true⟩ 1).offset = 5 ∧
    (writeable_body tenBytes ⟨4, 4, true⟩ 1).calls =
      [.read 1, .libwebsocket_write ['1', '2', '3', '4']] ∧
    (∃ r, callback_http_HTTP_WRITEABLE tenBytes 5 [⟨0, 0, false⟩] 10 = some r ∧
      r.ret = -1 ∧ r.calls.getLast? = some (.close 5)) ∧
    (∃ r k, callback_http_HTTP_WRITEABLE tenBytes 5
        [⟨4, 1, false⟩, ⟨4, 4, true⟩] 0 = some r ∧
      r.accepted = (tenBytes.drop 0).take k ∧
      (r.ret = 0 → 0 ≤ r.offset ∧ k = (r.offset - 0).toNat)) :=
  ⟨congrArg BodyResult.offset
     ((partial_write_resumes tenBytes 5 0 ⟨4, 1, false⟩ [] (by decide)).1
       (by decide) (by decide) (by decide)).1,
   congrArg BodyResult.calls
     ((partial_write_resumes tenBytes 5 0 ⟨4, 1, false⟩ [] (by decide)).1
       (by decide) (by decide) (by decide)).1,
   congrArg BodyResult.offset
     ((partial_write_resumes tenBytes 5 1 ⟨4, 4, true⟩ [] (by decide)).2.1
       (by decide) (by decide)),
   congrArg BodyResult.calls
     ((partial_write_resumes tenBytes 5 1 ⟨4, 4, true⟩ [] (by decide)).2.1
       (by decide) (by decide)),
   (partial_write_resumes tenBytes 5 10 ⟨0, 0, false⟩ [] (by decide)).2.2.1 (by decide),
   (partial_write_resumes tenBytes 5 0 ⟨4, 1, false⟩ [⟨4, 4, true⟩] (by decide)).2.2.2
     (by decide) (by decide)⟩

end NotificationServer
